import Mathlib

/-!
# Verification of the SmartRoute graph-routing engine

Shallow embedding of `src/backend/utils/graphRouting.js` (class `RoadGraph`
and helper `pathExists`).  JavaScript `Map`s are modelled as insertion-ordered
association lists (`Map.set` replaces an existing entry in place or appends a
fresh one at the end — exactly the JS iteration-order semantics), JS `Set`s as
duplicate-free insertion-ordered lists, JS numbers as exact rationals `ℚ`
(the infinity used by Dijkstra is modelled as `Option ℚ` with `none` for
`Infinity`), and thrown `Error`s / `TypeError`s as `Except String`.
Spread semantics (`{...data}` overriding earlier fields) is modelled by
`Option`-valued attribute records where `none` means "key absent".
-/

deriving instance DecidableEq for Except

attribute [local semireducible] Rat.add Rat.mul Rat.inv Rat.sub

namespace SmartRoute

/-- `Map.set`: replace the entry with key `k` in place, or append at the end. -/
def mapSet {α : Type} (m : List (String × α)) (k : String) (v : α) : List (String × α) :=
  match m with
  | [] => [(k, v)]
  | (k0, v0) :: rest => if k0 = k then (k, v) :: rest else (k0, v0) :: mapSet rest k v

/-- `Map.get`: first entry with key `k` (unique anyway in JS maps). -/
def mapGet {α : Type} (m : List (String × α)) (k : String) : Option α :=
  match m with
  | [] => none
  | (k0, v0) :: rest => if k0 = k then some v0 else mapGet rest k

/-- `Map.delete`: remove the entry with key `k`, preserving the order of the rest. -/
def mapDelete {α : Type} (m : List (String × α)) (k : String) : List (String × α) :=
  match m with
  | [] => []
  | (k0, v0) :: rest => if k0 = k then rest else (k0, v0) :: mapDelete rest k

/-- `Set.add`: append if not already present. -/
def setAdd (s : List String) (x : String) : List String :=
  if x ∈ s then s else s ++ [x]

/-- `Set.delete`. -/
def setDelete (s : List String) (x : String) : List String :=
  s.filter (fun y => y ≠ x)

theorem mapGet_mapSet_self {α : Type} (m : List (String × α)) (k : String) (v : α) :
    mapGet (mapSet m k v) k = some v := by
  induction m with
  | nil => simp [mapSet, mapGet]
  | cons hd tl ih =>
    obtain ⟨k0, v0⟩ := hd
    by_cases h : k0 = k <;> simp [mapSet, mapGet, h, ih]

theorem mapGet_mapSet_ne {α : Type} (m : List (String × α)) (k k2 : String) (v : α)
    (h : k2 ≠ k) : mapGet (mapSet m k v) k2 = mapGet m k2 := by
  have hne : ¬ k = k2 := fun hh => h (Eq.symm hh)
  induction m with
  | nil => simp [mapSet, mapGet, hne]
  | cons hd tl ih =>
    obtain ⟨k0, v0⟩ := hd
    by_cases h0 : k0 = k
    · subst h0
      simp [mapSet, mapGet, hne]
    · by_cases h2 : k0 = k2
      · subst h2
        simp [mapSet, mapGet, h0, hne]
      · simp [mapSet, mapGet, h0, h2, ih]

theorem mapSet_self_of_get {α : Type} (m : List (String × α)) (k : String) (v : α)
    (h : mapGet m k = some v) : mapSet m k v = m := by
  induction m with
  | nil => simp [mapGet] at h
  | cons hd tl ih =>
    obtain ⟨k0, v0⟩ := hd
    by_cases h0 : k0 = k
    · subst h0
      simp [mapGet] at h
      simp [mapSet, h]
    · simp [mapGet, h0] at h
      simp [mapSet, h0, ih h]

theorem isSome_mapGet_mapSet {α : Type} (m : List (String × α)) (k k2 : String) (v : α)
    (h : (mapGet m k2).isSome) : (mapGet (mapSet m k v) k2).isSome := by
  by_cases hk : k2 = k
  · subst hk; simp [mapGet_mapSet_self]
  · rwa [mapGet_mapSet_ne m k k2 v hk]

theorem mem_setAdd (s : List String) (x y : String) :
    y ∈ setAdd s x ↔ y ∈ s ∨ y = x := by
  by_cases h : x ∈ s
  · simp only [setAdd, if_pos h]
    constructor
    · exact fun hy => Or.inl hy
    · rintro (hy | rfl) <;> assumption
  · simp [setAdd, if_neg h]

/-! ## The data model

The JS edge object created by `addEdge` carries `id`, `from`, `to`, the five
numeric attributes with their defaults, plus whatever further keys the `...data`
spread contributes; of those, `currentTravelTime` (set by `updateEdgeLoad` or
copied by the temp-graph construction) and `bidirectional` are the ones the
routing code reads, so they are modelled as optional fields (`none` = key
absent).  `from` is a Lean keyword, hence the field name `from_`. -/

structure Edge where
  id : String
  from_ : String
  to_ : String
  distance : ℚ
  travelTime : ℚ
  capacity : ℚ
  currentLoad : ℚ
  speedLimit : ℚ
  currentTravelTime : Option ℚ
  bidirectional : Option Bool
deriving DecidableEq, Repr

/-- A node: `{ id, connections: new Set(), ...data }`.  Only `id` and
`connections` are ever read by the routing code, so the other display
attributes are not modelled. -/
structure Node where
  id : String
  connections : List String
deriving DecidableEq, Repr

structure RoadGraph where
  nodes : List (String × Node)
  edges : List (String × Edge)
deriving DecidableEq, Repr

def emptyGraph : RoadGraph := ⟨[], []⟩

/-- The deterministic edge identifier `` `${fromId}-${toId}` ``. -/
def edgeKey (fromId toId : String) : String := fromId ++ "-" ++ toId

/-- The attribute object passed to `addEdge`.  A field is `none` when the key
is absent from the JS object.  Because the source spreads `...data` *after*
the defaulted fields, any present key overrides the default — including `id`,
`from` and `to` (which `createKachiDhamNetwork` and the temp-graph copy of
`findAlternativePaths` really do pass). -/
structure EdgeData where
  id : Option String
  from_ : Option String
  to_ : Option String
  distance : Option ℚ
  travelTime : Option ℚ
  capacity : Option ℚ
  currentLoad : Option ℚ
  speedLimit : Option ℚ
  currentTravelTime : Option ℚ
  bidirectional : Option Bool
deriving DecidableEq, Repr

def emptyEdgeData : EdgeData :=
  ⟨none, none, none, none, none, none, none, none, none, none⟩

/-- Spreading a full edge object as attribute data (`{...edge}`). -/
def edgeDataOfEdge (e : Edge) : EdgeData :=
  ⟨some e.id, some e.from_, some e.to_, some e.distance, some e.travelTime,
   some e.capacity, some e.currentLoad, some e.speedLimit,
   e.currentTravelTime, e.bidirectional⟩

/-- The edge record built by `addEdge`:
`{ id: edgeId, from, to, distance: data.distance || 1, travelTime: data.travelTime || data.distance || 1, capacity: data.capacity || 100, currentLoad: data.currentLoad || 0, speedLimit: data.speedLimit || 50, ...data }`.
Because `...data` comes last, a present key always wins; the `||`-defaults only
survive for absent keys, except that `travelTime` falls back to a *truthy*
`data.distance` (JS treats `0` as falsy). -/
def mkEdge (edgeId fromId toId : String) (data : EdgeData) : Edge :=
  { id := data.id.getD edgeId
    from_ := data.from_.getD fromId
    to_ := data.to_.getD toId
    distance := data.distance.getD 1
    travelTime :=
      match data.travelTime with
      | some t => t
      | none =>
        match data.distance with
        | some d => if d = 0 then 1 else d
        | none => 1
    capacity := data.capacity.getD 100
    currentLoad := data.currentLoad.getD 0
    speedLimit := data.speedLimit.getD 50
    currentTravelTime := data.currentTravelTime
    bidirectional := data.bidirectional }

/-- `addNode(id, data)` with plain display attributes (no `connections` key in
`data`): inserts or overwrites the node with a fresh empty connection set. -/
def addNode (g : RoadGraph) (id : String) : RoadGraph :=
  { g with nodes := mapSet g.nodes id { id := id, connections := [] } }

/-- `this.nodes.get(fromId).connections.add(toId)` — mutate a node's connection
set in place. -/
def addConnection (nodes : List (String × Node)) (fromId toId : String) :
    List (String × Node) :=
  match mapGet nodes fromId with
  | some n => mapSet nodes fromId { n with connections := setAdd n.connections toId }
  | none => nodes

/-- `addEdge(fromId, toId, data)`. Throws when either endpoint is absent;
otherwise stores the edge under `` `${fromId}-${toId}` ``, registers the
connection, and — when `data.bidirectional` is truthy — performs the symmetric
insertion with the *same* attribute object. -/
def addEdge (g : RoadGraph) (fromId toId : String) (data : EdgeData) :
    Except String RoadGraph :=
  let edgeId := edgeKey fromId toId
  if (mapGet g.nodes fromId).isNone || (mapGet g.nodes toId).isNone then
    .error s!"Cannot create edge between non-existent nodes: {fromId}, {toId}"
  else
    let g1 : RoadGraph :=
      { nodes := addConnection g.nodes fromId toId
        edges := mapSet g.edges edgeId (mkEdge edgeId fromId toId data) }
    if data.bidirectional.getD false then
      let reverseEdgeId := edgeKey toId fromId
      .ok { nodes := addConnection g1.nodes toId fromId
            edges := mapSet g1.edges reverseEdgeId (mkEdge reverseEdgeId toId fromId data) }
    else
      .ok g1

/-- `updateEdgeLoad(fromId, toId, load)`.  Throws iff the edge is absent;
otherwise stores the load verbatim and recomputes
`currentTravelTime = travelTime * (1 + load / capacity)`.
(The JS division produces `Infinity`/`NaN` when `capacity` is `0`; every
claim about this operation assumes a positive capacity, where the exact
rational division used here agrees with the source.) -/
def updateEdgeLoad (g : RoadGraph) (fromId toId : String) (load : ℚ) :
    Except String RoadGraph :=
  let edgeId := edgeKey fromId toId
  match mapGet g.edges edgeId with
  | none => .error s!"Edge does not exist: {edgeId}"
  | some edge =>
    let loadFactor := load / edge.capacity
    .ok { g with
          edges := mapSet g.edges edgeId
            { edge with
              currentLoad := load
              currentTravelTime := some (edge.travelTime * (1 + loadFactor)) } }

/-! ## `findShortestPath` (Dijkstra)

Distances live in `Option ℚ` with `none` playing `Infinity` (and the `NaN`
that `undefined + weight` would produce: both compare `false` under `<`,
which is all the algorithm ever does with them). -/

/-- The default weight function `(edge) => edge.currentTravelTime || edge.travelTime`:
`currentTravelTime` is used when present and truthy (JS treats `0` as falsy). -/
def defaultWeight (e : Edge) : ℚ :=
  match e.currentTravelTime with
  | some c => if c = 0 then e.travelTime else c
  | none => e.travelTime

/-- JS `<` on `Infinity`-extended numbers: anything `< Infinity` except
`Infinity` itself; `Infinity < x` is `false`. -/
def optLt (a b : Option ℚ) : Bool :=
  match a, b with
  | some x, some y => decide (x < y)
  | some _, none => true
  | none, _ => false

/-- `distances.set(nodeId, nodeId === startId ? 0 : Infinity)` over the node keys. -/
def initDistances (keys : List String) (startId : String) : List (String × Option ℚ) :=
  keys.foldl (fun ds k => mapSet ds k (if k = startId then some (0 : ℚ) else none)) []

/-- One step of the minimum scan:
`if (distance < minDistance) { minDistance = distance; current = nodeId; }`. -/
def minStep (ds : List (String × Option ℚ)) (acc : Option String × Option ℚ)
    (nodeId : String) : Option String × Option ℚ :=
  let distance := (mapGet ds nodeId).getD none
  if optLt distance acc.2 then (some nodeId, distance) else acc

/-- The scan for the unvisited node with minimum distance (`current`,
`minDistance` start as `null` / `Infinity`; only a strictly smaller distance
replaces the candidate, so the earliest minimum in insertion order wins). -/
def findMinNode (ds : List (String × Option ℚ)) (unvisited : List String) :
    Option String × Option ℚ :=
  unvisited.foldl (minStep ds) (none, none)

/-- The neighbor-relaxation loop of one Dijkstra iteration.  A neighbor still
listed in `connections` whose edge is missing from the map makes the JS weight
function dereference `undefined` — a thrown `TypeError`, reachable through the
edge-suppression of `findAlternativePaths`. -/
def relaxNeighbors (g : RoadGraph) (getW : Edge → ℚ) (current : String)
    (unvisited : List String) :
    List String → List (String × Option ℚ) → List (String × String) →
    Except String (List (String × Option ℚ) × List (String × String))
  | [], ds, prev => .ok (ds, prev)
  | neighborId :: rest, ds, prev =>
    if neighborId ∈ unvisited then
      match mapGet g.edges (edgeKey current neighborId) with
      | none => .error "TypeError: cannot read properties of undefined"
      | some edge =>
        let weight := getW edge
        let newDistance := ((mapGet ds current).getD none).map (fun d => d + weight)
        if optLt newDistance ((mapGet ds neighborId).getD none) then
          relaxNeighbors g getW current unvisited rest
            (mapSet ds neighborId newDistance) (mapSet prev neighborId current)
        else
          relaxNeighbors g getW current unvisited rest ds prev
    else
      relaxNeighbors g getW current unvisited rest ds prev

/-- The main `while (unvisited.size > 0)` loop.  Each iteration that neither
breaks nor returns removes one node from `unvisited`, so `unvisited.length`
steps of fuel reproduce the loop exactly. -/
def dijkstraLoop (g : RoadGraph) (getW : Edge → ℚ) (endId : String) :
    ℕ → List (String × Option ℚ) → List (String × String) → List String →
    Except String (List (String × Option ℚ) × List (String × String))
  | 0, ds, prev, _ => .ok (ds, prev)
  | Nat.succ fuel, ds, prev, unvisited =>
    if unvisited.isEmpty then .ok (ds, prev)
    else
      match (findMinNode ds unvisited).1 with
      | none => .ok (ds, prev)
      | some current =>
        if current = endId then .ok (ds, prev)
        else
          let unvisited2 := setDelete unvisited current
          let conns :=
            match mapGet g.nodes current with
            | some n => n.connections
            | none => []
          match relaxNeighbors g getW current unvisited2 conns ds prev with
          | .error msg => .error msg
          | .ok (ds2, prev2) => dijkstraLoop g getW endId fuel ds2 prev2 unvisited2

/-- `while (current !== startId) { path.unshift(current); current = previous.get(current); }`.
A `previous` chain that never reaches `startId` loops forever in JS (the
cursor becomes `undefined` and stays there); fuel `prev.length + 2` covers
every terminating chain (it can visit each stored key at most once), so fuel
exhaustion models exactly the JS non-termination. -/
def buildPath (prev : List (String × String)) (startId : String) :
    ℕ → String → List String → Except String (List String)
  | 0, _, _ => .error "non-terminating path reconstruction"
  | Nat.succ fuel, current, acc =>
    if current = startId then .ok (current :: acc)
    else
      match mapGet prev current with
      | none => .error "non-terminating path reconstruction"
      | some p => buildPath prev startId fuel p (current :: acc)

/-- The totals loop: walk consecutive path pairs, collect each edge and
accumulate `distance` and `currentTravelTime || travelTime`.  A missing edge
would make the JS `edge.distance` access throw. -/
def sumUp (g : RoadGraph) : List String → Except String (List Edge × ℚ × ℚ)
  | [] => .ok ([], 0, 0)
  | [_] => .ok ([], 0, 0)
  | a :: b :: rest =>
    match mapGet g.edges (edgeKey a b) with
    | none => .error "TypeError: cannot read properties of undefined"
    | some e =>
      match sumUp g (b :: rest) with
      | .error msg => .error msg
      | .ok (es, d, t) => .ok (e :: es, e.distance + d, defaultWeight e + t)

/-- The result shape of `findShortestPath`.  The not-found object
`{found: false, distance: Infinity, path: []}` carries no `edges` /
`travelTime` keys; those absences are modelled as `[]` and `none`
(`distance = none` models `Infinity`). -/
structure PathResult where
  found : Bool
  path : List String
  edges : List Edge
  distance : Option ℚ
  travelTime : Option ℚ
deriving DecidableEq, Repr

/-- The post-loop part of `findShortestPath`: the `previous.get(endId)`
guard, path reconstruction and the totals loop. -/
def reconstruct (g : RoadGraph) (startId endId : String)
    (prev : List (String × String)) : Except String PathResult :=
  match mapGet prev endId with
  | none => .ok { found := false, path := [], edges := [], distance := none, travelTime := none }
  | some _ =>
    match buildPath prev startId (prev.length + 2) endId [] with
    | .error msg => .error msg
    | .ok path =>
      match sumUp g path with
      | .error msg => .error msg
      | .ok (es, d, t) =>
        .ok { found := true, path := path, edges := es,
              distance := some d, travelTime := some t }

/-- `findShortestPath(startId, endId, weightFn)`. -/
def findShortestPath (g : RoadGraph) (startId endId : String)
    (weightFn : Option (Edge → ℚ)) : Except String PathResult :=
  let getW := weightFn.getD defaultWeight
  if (mapGet g.nodes startId).isNone || (mapGet g.nodes endId).isNone then
    .error s!"Start or end node does not exist: {startId}, {endId}"
  else
    let keys := g.nodes.map Prod.fst
    let ds0 := initDistances keys startId
    let unvisited0 := keys.foldl setAdd []
    match dijkstraLoop g getW endId unvisited0.length ds0 [] unvisited0 with
    | .error msg => .error msg
    | .ok (_, prev) => reconstruct g startId endId prev

/-! ## `findAlternativePaths` -/

/-- `newPath.join('-')`-based duplicate detection of the helper `pathExists`. -/
def joinDash (p : List String) : String := String.intercalate "-" p

/-- `pathExists(existingPaths, newPath)`. -/
def pathExists (existingPaths : List PathResult) (newPath : List String) : Bool :=
  existingPaths.any (fun existing => joinDash existing.path == joinDash newPath)

/-- The node-copy loop `tempGraph.addNode(nodeId, { ...node })`: the spread
re-supplies `id` and the (aliased) `connections` set, so each entry is copied
verbatim; the edge map starts empty. -/
def copyNodes (g : RoadGraph) : RoadGraph :=
  { nodes := g.nodes.foldl (fun ns p => mapSet ns p.1 p.2) []
    edges := [] }

/-- The edge-copy loop: for every stored edge not yet present under its map
key, `tempGraph.addEdge(edge.from, edge.to, { ...edge, bidirectional: false })`. -/
def copyEdges : List (String × Edge) → RoadGraph → Except String RoadGraph
  | [], tg => .ok tg
  | (edgeId, e) :: rest, tg =>
    if (mapGet tg.edges edgeId).isSome then
      copyEdges rest tg
    else
      match addEdge tg e.from_ e.to_ { edgeDataOfEdge e with bidirectional := some false } with
      | .error msg => .error msg
      | .ok tg2 => copyEdges rest tg2

/-- The temporary working copy built at the top of `findAlternativePaths`. -/
def copyGraph (g : RoadGraph) : Except String RoadGraph :=
  copyEdges g.edges (copyNodes g)

/-- The consecutive `(path[j], path[j+1])` pairs of a path. -/
def pathPairs : List String → List (String × String)
  | a :: b :: rest => (a, b) :: pathPairs (b :: rest)
  | _ => []

/-- The inner `j`-loop: suppress each edge of the previous path in turn,
re-run Dijkstra, restore the edge (`addEdge(fromId, toId, edge)`; when the
map key was absent, `edge` is `undefined` and the `data = {}` default object
applies), and accept the first found path whose joined node sequence is new. -/
def tryRemoveEdges (startId endId : String) (paths : List PathResult) :
    List (String × String) → RoadGraph → Except String (Option (PathResult × RoadGraph))
  | [], _ => .ok none
  | (fromId, toId) :: rest, tg =>
    let edgeId := edgeKey fromId toId
    let saved := mapGet tg.edges edgeId
    let tg1 : RoadGraph := { tg with edges := mapDelete tg.edges edgeId }
    match findShortestPath tg1 startId endId none with
    | .error msg => .error msg
    | .ok newPath =>
      let restoreData :=
        match saved with
        | some e => edgeDataOfEdge e
        | none => emptyEdgeData
      match addEdge tg1 fromId toId restoreData with
      | .error msg => .error msg
      | .ok tg2 =>
        if newPath.found && !(pathExists paths newPath.path) then
          .ok (some (newPath, tg2))
        else
          tryRemoveEdges startId endId paths rest tg2

/-- The outer `for (let i = 1; i < k; i++)` loop; `fuel = k - i` counts the
remaining iterations, `i` is kept for the `paths[i-1]` access.  An absent
`paths[i-1]` would make `prevPath.path` throw in JS. -/
def altLoop (startId endId : String) :
    ℕ → ℕ → RoadGraph → List PathResult → Except String (List PathResult)
  | 0, _, _, paths => .ok paths
  | Nat.succ fuel, i, tg, paths =>
    match paths.get? (i - 1) with
    | none => .error "TypeError: cannot read properties of undefined"
    | some prevPath =>
      match tryRemoveEdges startId endId paths (pathPairs prevPath.path) tg with
      | .error msg => .error msg
      | .ok none => .ok paths
      | .ok (some (newPath, tg2)) =>
        altLoop startId endId fuel (i + 1) tg2 (paths ++ [newPath])

/-- `findAlternativePaths(startId, endId, k)`. -/
def findAlternativePaths (g : RoadGraph) (startId endId : String) (k : ℕ) :
    Except String (List PathResult) :=
  match findShortestPath g startId endId none with
  | .error msg => .error msg
  | .ok initialPath =>
    if initialPath.found then
      match copyGraph g with
      | .error msg => .error msg
      | .ok tg => altLoop startId endId (k - 1) 1 tg [initialPath]
    else
      .ok []

/-! ## `distributeTraffic` -/

/-- One entry of the distribution plan. -/
structure DistEntry where
  path : List String
  edges : List Edge
  travelTime : Option ℚ
  distance : Option ℚ
  weight : ℚ
  vehicleCount : ℤ
deriving DecidableEq, Repr

structure DistributionResult where
  success : Bool
  message : Option String
  totalVehicles : Option ℤ
  distribution : List DistEntry
deriving DecidableEq, Repr

/-- `1 / path.travelTime`.  On a zero (or absent) travel time the JS division
produces `Infinity` (resp. `NaN`), which poisons every later count with `NaN`;
exact rationals cannot represent that, so the model rejects the non-finite
arithmetic with an error.  Success results therefore correspond exactly to the
JS runs whose weights are all finite and nonzero. -/
def pathWeight (p : PathResult) : Except String ℚ :=
  match p.travelTime with
  | some t => if t = 0 then .error "non-finite arithmetic: 1/0" else .ok (1 / t)
  | none => .error "non-finite arithmetic: 1/undefined"

def computeWeights : List PathResult → Except String (List (PathResult × ℚ))
  | [] => .ok []
  | p :: rest =>
    match pathWeight p, computeWeights rest with
    | .ok w, .ok ws => .ok ((p, w) :: ws)
    | .error msg, _ => .error msg
    | _, .error msg => .error msg

/-- One distribution entry with its floored allocation
`Math.floor(totalVehicles * (route.weight / totalWeight))`. -/
def mkDistEntry (totalVehicles : ℤ) (totalWeight : ℚ) (pw : PathResult × ℚ) :
    DistEntry :=
  { path := pw.1.path
    edges := pw.1.edges
    travelTime := pw.1.travelTime
    distance := pw.1.distance
    weight := pw.2
    vehicleCount := ⌊(totalVehicles : ℚ) * (pw.2 / totalWeight)⌋ }

/-- `if (remainingVehicles > 0) distribution[0].vehicleCount += remainingVehicles`. -/
def assignRemainder (remaining : ℤ) (distribution : List DistEntry) :
    List DistEntry :=
  if 0 < remaining then
    match distribution with
    | [] => []
    | d :: ds => { d with vehicleCount := d.vehicleCount + remaining } :: ds
  else distribution

/-- The whole allocation step of `distributeTraffic`: floored proportional
counts, then the leftover added to the first entry. -/
def allocate (totalVehicles : ℤ) (totalWeight : ℚ)
    (weighted : List (PathResult × ℚ)) : List DistEntry :=
  let distribution := weighted.map (mkDistEntry totalVehicles totalWeight)
  let flooredSum := (distribution.map DistEntry.vehicleCount).foldl (fun a b => a + b) 0
  assignRemainder (totalVehicles - flooredSum) distribution

/-- `distributeTraffic(startId, endId, totalVehicles, numPaths)`.  The division
`route.weight / totalWeight` with `totalWeight === 0` would likewise be
non-finite in JS and is rejected by the model. -/
def distributeTraffic (g : RoadGraph) (startId endId : String)
    (totalVehicles : ℤ) (numPaths : ℕ) : Except String DistributionResult :=
  match findAlternativePaths g startId endId numPaths with
  | .error msg => .error msg
  | .ok paths =>
    if paths.isEmpty then
      .ok { success := false, message := some "No paths found",
            totalVehicles := none, distribution := [] }
    else
      match computeWeights paths with
      | .error msg => .error msg
      | .ok weighted =>
        let totalWeight := (weighted.map Prod.snd).foldl (fun a b => a + b) 0
        if totalWeight = 0 then .error "non-finite arithmetic: division by zero total weight"
        else
          .ok { success := true, message := none,
                totalVehicles := some totalVehicles,
                distribution := allocate totalVehicles totalWeight weighted }

/-! ## Concrete graphs used by the scenarios -/

/-- Extract the graph from a construction step that is known to succeed. -/
def orElse (r : Except String RoadGraph) (g : RoadGraph) : RoadGraph :=
  r.toOption.getD g

/-- Attributes `{travelTime: t, capacity: c}`. -/
def ttCap (t c : ℚ) : EdgeData :=
  { emptyEdgeData with travelTime := some t, capacity := some c }

/-- The §8 scenario graph: nodes `A`, `B`, `C`; directed edges `A→B`
(travelTime 5, capacity 100), `B→C` (5, 100), `A→C` (20, 100). -/
def gABC : RoadGraph :=
  let g0 := addNode (addNode (addNode emptyGraph "A") "B") "C"
  let g1 := orElse (addEdge g0 "A" "B" (ttCap 5 100)) g0
  let g2 := orElse (addEdge g1 "B" "C" (ttCap 5 100)) g1
  orElse (addEdge g2 "A" "C" (ttCap 20 100)) g2

/-- Two nodes, one edge `A→B` with travelTime 10, capacity 100. -/
def gAB : RoadGraph :=
  let g0 := addNode (addNode emptyGraph "A") "B"
  orElse (addEdge g0 "A" "B" (ttCap 10 100)) g0

/-- `gAB` after `updateEdgeLoad("A", "B", -200)`: the congestion formula yields
`10 * (1 + (-200)/100) = -10`. -/
def gABneg : RoadGraph :=
  orElse (updateEdgeLoad gAB "A" "B" (-200)) gAB

/-- Two nodes and an edge whose `travelTime` attribute is `0` — legal for
`addEdge`, poisonous for `distributeTraffic`'s reciprocal weights. -/
def gZero : RoadGraph :=
  let g0 := addNode (addNode emptyGraph "A") "B"
  orElse (addEdge g0 "A" "B" (ttCap 0 100)) g0

/-! ## Basic facts about `updateEdgeLoad` (claims C6, C7, C10) -/

/-- The edge record written back by a successful `updateEdgeLoad`. -/
def loadedEdge (e : Edge) (L : ℚ) : Edge :=
  { e with currentLoad := L
           currentTravelTime := some (e.travelTime * (1 + L / e.capacity)) }

/-- Successful `updateEdgeLoad` in closed form. -/
theorem updateEdgeLoad_ok_form (g : RoadGraph) (f t : String) (L : ℚ) (e : Edge)
    (he : mapGet g.edges (edgeKey f t) = some e) :
    updateEdgeLoad g f t L =
      .ok { g with edges := mapSet g.edges (edgeKey f t) (loadedEdge e L) } := by
  simp only [updateEdgeLoad, he, loadedEdge]

/-- Failing `updateEdgeLoad` in closed form. -/
theorem updateEdgeLoad_error_form (g : RoadGraph) (f t : String) (L : ℚ)
    (he : mapGet g.edges (edgeKey f t) = none) :
    updateEdgeLoad g f t L = .error s!"Edge does not exist: {edgeKey f t}" := by
  simp only [updateEdgeLoad, he]

/-- Claim C6: for every existing edge with positive capacity and positive base
travel time, after `updateEdgeLoad(from, to, L)` the edge's
`currentTravelTime` equals `baseTravelTime * (1 + L / capacity)`; in
particular it equals the base travel time when `L = 0` and exactly twice the
base travel time when `L` equals the capacity, with no upper cap (every bound
`M` is exceeded for a suitable load). -/
theorem updateEdgeLoad_congestion_formula (g : RoadGraph) (f t : String) (L : ℚ)
    (e : Edge) (g2 : RoadGraph)
    (he : mapGet g.edges (edgeKey f t) = some e)
    (hcap : 0 < e.capacity) (htt : 0 < e.travelTime)
    (hup : updateEdgeLoad g f t L = .ok g2) :
    ∃ e2, mapGet g2.edges (edgeKey f t) = some e2 ∧
      e2.currentTravelTime = some (e.travelTime * (1 + L / e.capacity)) ∧
      (L = 0 → e2.currentTravelTime = some e.travelTime) ∧
      (L = e.capacity → e2.currentTravelTime = some (2 * e.travelTime)) ∧
      (∀ M : ℚ, ∃ L3 g3 e3 v3, updateEdgeLoad g f t L3 = .ok g3 ∧
        mapGet g3.edges (edgeKey f t) = some e3 ∧
        e3.currentTravelTime = some v3 ∧ M < v3) := by
  rw [updateEdgeLoad_ok_form g f t L e he] at hup
  obtain rfl : _ = g2 := Except.ok.inj hup
  refine ⟨loadedEdge e L, mapGet_mapSet_self _ _ _, rfl, ?_, ?_, ?_⟩
  · rintro rfl
    simp [loadedEdge]
  · rintro rfl
    simp only [loadedEdge, div_self (ne_of_gt hcap)]
    norm_num [mul_comm]
  · intro M
    refine ⟨e.capacity * (M / e.travelTime), _, loadedEdge e _, e.travelTime + M,
      updateEdgeLoad_ok_form g f t _ e he, mapGet_mapSet_self _ _ _, ?_, by linarith⟩
    simp only [loadedEdge]
    congr 1
    field_simp
    ring

/-- Witness for C6: a concrete run on `gAB` with load `0` keeps the base
travel time `10`. -/
theorem updateEdgeLoad_congestion_formula_witness :
    (mapGet (orElse (updateEdgeLoad gAB "A" "B" 0) gAB).edges
      (edgeKey "A" "B")).map Edge.currentTravelTime = some (some 10) := by
  obtain ⟨e2, hget, hval, hzero, -, -⟩ :=
    updateEdgeLoad_congestion_formula gAB "A" "B" 0
      { id := "A-B", from_ := "A", to_ := "B", distance := 1, travelTime := 10,
        capacity := 100, currentLoad := 0, speedLimit := 50,
        currentTravelTime := none, bidirectional := none }
      (orElse (updateEdgeLoad gAB "A" "B" 0) gAB)
      (by decide) (by decide) (by decide) (by decide)
  simp [hget, hzero rfl]

/-- Claim C7: `updateEdgeLoad` is idempotent — repeating the call with the
same load leaves the whole graph unchanged — and strictly monotonic in the
load for a fixed edge with positive capacity and positive base travel time. -/
theorem updateEdgeLoad_idempotent_monotone :
    (∀ g f t L g2, updateEdgeLoad g f t L = .ok g2 →
      updateEdgeLoad g2 f t L = .ok g2)
    ∧ (∀ g f t (L1 L2 : ℚ) g1 g2 e, mapGet g.edges (edgeKey f t) = some e →
        0 < e.capacity → 0 < e.travelTime → L1 < L2 →
        updateEdgeLoad g f t L1 = .ok g1 → updateEdgeLoad g f t L2 = .ok g2 →
        ∃ e1 e2 v1 v2,
          mapGet g1.edges (edgeKey f t) = some e1 ∧
          mapGet g2.edges (edgeKey f t) = some e2 ∧
          e1.currentTravelTime = some v1 ∧ e2.currentTravelTime = some v2 ∧
          v1 < v2) := by
  constructor
  · intro g f t L g2 hup
    match he : mapGet g.edges (edgeKey f t) with
    | none =>
      rw [updateEdgeLoad_error_form g f t L he] at hup
      exact absurd hup (by simp)
    | some e =>
      rw [updateEdgeLoad_ok_form g f t L e he] at hup
      obtain rfl : _ = g2 := Except.ok.inj hup
      rw [updateEdgeLoad_ok_form _ f t L (loadedEdge e L) (mapGet_mapSet_self _ _ _)]
      have hsame : loadedEdge (loadedEdge e L) L = loadedEdge e L := by
        cases e
        simp [loadedEdge]
      rw [hsame, mapSet_self_of_get _ _ _ (mapGet_mapSet_self _ _ _)]
  · intro g f t L1 L2 g1 g2 e he hcap htt hlt h1 h2
    rw [updateEdgeLoad_ok_form g f t L1 e he] at h1
    rw [updateEdgeLoad_ok_form g f t L2 e he] at h2
    obtain rfl : _ = g1 := Except.ok.inj h1
    obtain rfl : _ = g2 := Except.ok.inj h2
    refine ⟨loadedEdge e L1, loadedEdge e L2,
      e.travelTime * (1 + L1 / e.capacity), e.travelTime * (1 + L2 / e.capacity),
      mapGet_mapSet_self _ _ _, mapGet_mapSet_self _ _ _, rfl, rfl, ?_⟩
    have hdiv : L1 / e.capacity < L2 / e.capacity := by gcongr
    have := mul_lt_mul_of_pos_left (add_lt_add_left hdiv 1) htt
    exact this

/-- Witness for C7: applying the idempotence half at a concrete load. -/
theorem updateEdgeLoad_idempotent_monotone_witness :
    updateEdgeLoad (orElse (updateEdgeLoad gAB "A" "B" 30) gAB) "A" "B" 30 =
      .ok (orElse (updateEdgeLoad gAB "A" "B" 30) gAB) :=
  updateEdgeLoad_idempotent_monotone.1 gAB "A" "B" 30
    (orElse (updateEdgeLoad gAB "A" "B" 30) gAB) (by decide)

/-- Claim C10: `updateEdgeLoad` throws exactly when the edge is absent; an
existing edge accepts any rational load without range validation — the load is
stored verbatim and the recomputed `currentTravelTime` follows the congestion
formula unconditionally.  Concretely on `gAB` (base travel time `10`,
capacity `100`): load `-50` yields `currentTravelTime = 5 < 10`, and load
`-200` yields `-10 < 0`, which `findShortestPath` then uses unchecked as the
edge cost (the reported travel time of the only path is `-10`). -/
theorem updateEdgeLoad_no_validation :
    (∀ g f t (L : ℚ), (updateEdgeLoad g f t L).toOption = none ↔
      mapGet g.edges (edgeKey f t) = none)
    ∧ (∀ g f t (L : ℚ) g2 e, mapGet g.edges (edgeKey f t) = some e →
        updateEdgeLoad g f t L = .ok g2 →
        ∃ e2, mapGet g2.edges (edgeKey f t) = some e2 ∧ e2.currentLoad = L ∧
          e2.currentTravelTime = some (e.travelTime * (1 + L / e.capacity)))
    ∧ ((mapGet (orElse (updateEdgeLoad gAB "A" "B" (-50)) gAB).edges
        (edgeKey "A" "B")).map Edge.currentTravelTime = some (some 5) ∧ (5:ℚ) < 10)
    ∧ ((mapGet gABneg.edges (edgeKey "A" "B")).map Edge.currentTravelTime =
        some (some (-10)) ∧ (-10:ℚ) < 0)
    ∧ (findShortestPath gABneg "A" "B" none).map PathResult.travelTime =
        .ok (some (-10)) := by
  refine ⟨?_, ?_, by decide, by decide, by decide⟩
  · intro g f t L
    match he : mapGet g.edges (edgeKey f t) with
    | none => simp [updateEdgeLoad_error_form g f t L he, Except.toOption]
    | some e => simp [updateEdgeLoad_ok_form g f t L e he, Except.toOption]
  · intro g f t L g2 e he hup
    rw [updateEdgeLoad_ok_form g f t L e he] at hup
    obtain rfl : _ = g2 := Except.ok.inj hup
    exact ⟨loadedEdge e L, mapGet_mapSet_self _ _ _, rfl, rfl⟩

/-- Witness for C10: the error side of the iff discharged at a concrete
missing edge (`gAB` has no edge `B→A`). -/
theorem updateEdgeLoad_no_validation_witness :
    (updateEdgeLoad gAB "B" "A" 7).toOption = none :=
  (updateEdgeLoad_no_validation.1 gAB "B" "A" 7).mpr (by decide)

/-! ## Claim C2: the §8 concrete scenario -/

/-- Claim C2 (code bug): on the scenario graph the shortest path is indeed
`[A, B, C]` with travel time `10`, but `findAlternativePaths("A", "C", 2)`
cannot surface `[A, C]`: suppressing the first edge of the previous path
deletes `A-B` from the temporary graph's edge map while node `A`'s connection
set still lists `B`, so the default weight function is applied to `undefined`
and the call throws a `TypeError` instead of returning a second path. -/
theorem scenario_shortest_ok_alternatives_crash :
    (findShortestPath gABC "A" "C" none).map (fun r => (r.found, r.path, r.travelTime)) =
      .ok (true, ["A", "B", "C"], some 10)
    ∧ findAlternativePaths gABC "A" "C" 2 =
      .error "TypeError: cannot read properties of undefined" :=
  ⟨by decide, by decide⟩

/-! ## Claim C3: `findShortestPath(a, a)` -/

theorem mapGet_isSome_iff_mem {α : Type} (m : List (String × α)) (k : String) :
    (mapGet m k).isSome ↔ k ∈ m.map Prod.fst := by
  induction m with
  | nil => simp [mapGet]
  | cons hd tl ih =>
    obtain ⟨k0, v0⟩ := hd
    by_cases h : k0 = k
    · subst h
      simp [mapGet]
    · simp only [mapGet, if_neg h, List.map_cons, List.mem_cons, ih]
      constructor
      · exact Or.inr
      · rintro (rfl | hmem)
        · exact absurd rfl h
        · exact hmem

theorem mem_foldl_setAdd (keys : List String) (s : List String) (x : String) :
    x ∈ keys.foldl setAdd s ↔ x ∈ s ∨ x ∈ keys := by
  induction keys generalizing s with
  | nil => simp
  | cons k rest ih =>
    simp only [List.foldl_cons, ih, mem_setAdd, List.mem_cons]
    tauto

theorem nodup_foldl_setAdd (keys : List String) (s : List String) (h : s.Nodup) :
    (keys.foldl setAdd s).Nodup := by
  induction keys generalizing s with
  | nil => exact h
  | cons k rest ih =>
    refine ih (setAdd s k) ?_
    by_cases hk : k ∈ s
    · simpa [setAdd, hk] using h
    · simp [setAdd, hk, List.nodup_append, h]

theorem mapGet_foldl_mapSet {α : Type} (keys : List String) (v : String → α)
    (acc : List (String × α)) (k : String) :
    mapGet (keys.foldl (fun ds k2 => mapSet ds k2 (v k2)) acc) k =
      if k ∈ keys then some (v k) else mapGet acc k := by
  induction keys generalizing acc with
  | nil => simp
  | cons k0 rest ih =>
    simp only [List.foldl_cons, ih]
    by_cases hk : k ∈ rest
    · simp [hk]
    · by_cases hk0 : k = k0
      · subst hk0
        simp [hk, mapGet_mapSet_self]
      · simp [hk, hk0, mapGet_mapSet_ne acc k0 k (v k0) hk0]

theorem mapGet_initDistances (keys : List String) (startId k : String) :
    mapGet (initDistances keys startId) k =
      if k ∈ keys then some (if k = startId then some 0 else none) else none := by
  have h := mapGet_foldl_mapSet keys
    (fun k2 => if k2 = startId then some (0 : ℚ) else none) [] k
  simpa [initDistances, mapGet] using h

theorem foldl_minStep_of_none (ds : List (String × Option ℚ)) (l : List String)
    (acc : Option String × Option ℚ)
    (hl : ∀ x ∈ l, (mapGet ds x).getD none = none) :
    l.foldl (minStep ds) acc = acc := by
  induction l generalizing acc with
  | nil => rfl
  | cons x rest ih =>
    have hx := hl x (by simp)
    have hstep : minStep ds acc x = acc := by
      simp [minStep, hx, optLt]
    simp only [List.foldl_cons, hstep]
    exact ih acc (fun y hy => hl y (by simp [hy]))

/-- If `a` is the only unvisited node at a non-`Infinity` distance (namely
`0`), the minimum scan selects it. -/
theorem findMinNode_eq_start (ds : List (String × Option ℚ)) (l : List String)
    (a : String) (hmem : a ∈ l) (hnd : l.Nodup)
    (ha : (mapGet ds a).getD none = some 0)
    (hother : ∀ x ∈ l, x ≠ a → (mapGet ds x).getD none = none) :
    findMinNode ds l = (some a, some 0) := by
  obtain ⟨l1, l2, rfl⟩ := List.append_of_mem hmem
  rw [List.nodup_append] at hnd
  obtain ⟨hnd1, hnd2, hdisj⟩ := hnd
  have ha1 : a ∉ l1 := fun hx => hdisj hx (by simp)
  have ha2 : a ∉ l2 := (List.nodup_cons.mp hnd2).1
  rw [findMinNode, List.foldl_append]
  rw [foldl_minStep_of_none ds l1 _
    (fun x hx => hother x (by simp [hx]) (fun heq => ha1 (heq ▸ hx)))]
  simp only [List.foldl_cons]
  have hstep : minStep ds (none, none) a = (some a, some 0) := by
    simp [minStep, ha, optLt]
  rw [hstep]
  exact foldl_minStep_of_none ds l2 _
    (fun x hx => hother x (by simp [hx]) (fun heq => ha2 (heq ▸ hx)))

/-- When the minimum scan immediately selects the destination, the main loop
breaks without touching its state. -/
theorem dijkstraLoop_select_end (g : RoadGraph) (getW : Edge → ℚ) (a : String)
    (fuel : ℕ) (ds : List (String × Option ℚ)) (unvisited : List String)
    (hmem : a ∈ unvisited) (hmin : (findMinNode ds unvisited).1 = some a) :
    dijkstraLoop g getW a fuel ds [] unvisited = .ok (ds, []) := by
  cases fuel with
  | zero => rfl
  | succ n =>
    have hne : unvisited.isEmpty = false := by
      cases unvisited with
      | nil => cases hmem
      | cons x xs => rfl
    rw [dijkstraLoop, hne]
    simp only [Bool.false_eq_true, if_false]
    rw [hmin]
    simp

/-- Claim C3 amended: for every graph and every node `a` present in it,
`findShortestPath(a, a)` returns the *not-found* result (`found: false`,
empty path, infinite distance): the start node is popped first, the
`current === endId` break fires immediately, and `previous` is still empty,
so the reconstruction guard reports no path. -/
theorem findShortestPath_self_not_found (g : RoadGraph) (a : String)
    (ha : (mapGet g.nodes a).isSome) :
    findShortestPath g a a none =
      .ok { found := false, path := [], edges := [],
            distance := none, travelTime := none } := by
  have hmem0 : a ∈ g.nodes.map Prod.fst := (mapGet_isSome_iff_mem g.nodes a).mp ha
  have hmem : a ∈ (g.nodes.map Prod.fst).foldl setAdd [] :=
    (mem_foldl_setAdd _ [] a).mpr (Or.inr hmem0)
  have hnd : ((g.nodes.map Prod.fst).foldl setAdd []).Nodup :=
    nodup_foldl_setAdd _ [] (by simp)
  have hmin : (findMinNode (initDistances (g.nodes.map Prod.fst) a)
      ((g.nodes.map Prod.fst).foldl setAdd [])).1 = some a := by
    rw [findMinNode_eq_start _ _ a hmem hnd ?_ ?_]
    · rw [mapGet_initDistances]
      simp [hmem0]
    · intro x hx hxa
      rw [mapGet_initDistances]
      by_cases hxk : x ∈ g.nodes.map Prod.fst <;> simp [hxk, hxa]
  have hloop := dijkstraLoop_select_end g defaultWeight a
    ((g.nodes.map Prod.fst).foldl setAdd []).length
    (initDistances (g.nodes.map Prod.fst) a)
    ((g.nodes.map Prod.fst).foldl setAdd []) hmem hmin
  have hnonempty : (mapGet g.nodes a).isNone = false := by
    rw [Option.isNone_eq_false_iff]
    exact ha
  unfold findShortestPath
  rw [hnonempty]
  simp only [Bool.or_self, Bool.false_eq_true, if_false, Option.getD_none]
  rw [hloop]
  simp [reconstruct, mapGet]

/-- Witness for the amended C3 on the single-node graph. -/
theorem findShortestPath_self_not_found_witness :
    findShortestPath (addNode emptyGraph "A") "A" "A" none =
      .ok { found := false, path := [], edges := [],
            distance := none, travelTime := none } :=
  findShortestPath_self_not_found (addNode emptyGraph "A") "A" (by decide)

/-- Counterexample to C3 as stated: on the single-node graph the result is
`found: false` with an empty path — not the claimed found result with path
`["A"]`, distance `0` and travel time `0`. -/
theorem findShortestPath_self_cex :
    (findShortestPath (addNode emptyGraph "A") "A" "A" none).map
      (fun r => (r.found, r.path, r.distance, r.travelTime)) =
      .ok (false, [], none, none) := by
  decide

/-! ## Claim C8: bidirectional edge insertion -/

/-- Nodes `A`, `B` with no edges yet. -/
def gNodesAB : RoadGraph := addNode (addNode emptyGraph "A") "B"

/-- Bidirectional attributes that also carry a `from` key — exactly what
`createKachiDhamNetwork` passes, since its edge records contain `from`/`to`. -/
def dataWithFrom : EdgeData :=
  { emptyEdgeData with bidirectional := some true, from_ := some "A" }

def gCex8 : RoadGraph := orElse (addEdge gNodesAB "A" "B" dataWithFrom) gNodesAB

/-- Counterexample to C8 as stated: with attributes that carry a `from` key
(as the network builder really passes), the edge stored under `"B-A"` has
`from = "A"`, not the claimed `from = toId = "B"` — the trailing `...data`
spread overrides the symmetric endpoints. -/
theorem addEdge_bidirectional_cex :
    addEdge gNodesAB "A" "B" dataWithFrom = .ok gCex8
    ∧ (mapGet gCex8.edges (edgeKey "B" "A")).map Edge.from_ = some "A"
    ∧ "A" ≠ "B" :=
  ⟨by decide, by decide, by decide⟩

/-- Claim C8 amended: when the bidirectional attributes carry no `from`/`to`
overrides and the two derived identifiers differ, `addEdge` inserts two
independent directed edges: the one stored under `"<toId>-<fromId>"` runs from
`toId` to `fromId`, carries the same base metrics as the forward edge, and a
subsequent `updateEdgeLoad` on either direction leaves the other direction's
record (hence its load and current travel time) unchanged. -/
theorem addEdge_bidirectional_independent (g : RoadGraph) (f t : String)
    (data : EdgeData) (g2 : RoadGraph)
    (hfrom : data.from_ = none) (hto : data.to_ = none)
    (hbid : data.bidirectional = some true)
    (hkeys : edgeKey t f ≠ edgeKey f t)
    (h : addEdge g f t data = .ok g2) :
    ∃ efwd erev,
      mapGet g2.edges (edgeKey f t) = some efwd ∧
      mapGet g2.edges (edgeKey t f) = some erev ∧
      erev.from_ = t ∧ erev.to_ = f ∧
      erev.distance = efwd.distance ∧ erev.travelTime = efwd.travelTime ∧
      erev.capacity = efwd.capacity ∧ erev.speedLimit = efwd.speedLimit ∧
      (∀ L g3, updateEdgeLoad g2 f t L = .ok g3 →
        mapGet g3.edges (edgeKey t f) = some erev) ∧
      (∀ L g3, updateEdgeLoad g2 t f L = .ok g3 →
        mapGet g3.edges (edgeKey f t) = some efwd) := by
  unfold addEdge at h
  by_cases hcond : ((mapGet g.nodes f).isNone || (mapGet g.nodes t).isNone) = true
  · rw [if_pos hcond] at h
    exact absurd h (by simp)
  · rw [if_neg hcond] at h
    rw [hbid] at h
    simp only [Option.getD_some, if_true] at h
    obtain rfl : _ = g2 := Except.ok.inj h
    have hfwd : mapGet
        (mapSet (mapSet g.edges (edgeKey f t) (mkEdge (edgeKey f t) f t data))
          (edgeKey t f) (mkEdge (edgeKey t f) t f data)) (edgeKey f t) =
        some (mkEdge (edgeKey f t) f t data) := by
      rw [mapGet_mapSet_ne _ _ _ _ (Ne.symm hkeys), mapGet_mapSet_self]
    have hrev : mapGet
        (mapSet (mapSet g.edges (edgeKey f t) (mkEdge (edgeKey f t) f t data))
          (edgeKey t f) (mkEdge (edgeKey t f) t f data)) (edgeKey t f) =
        some (mkEdge (edgeKey t f) t f data) := mapGet_mapSet_self _ _ _
    refine ⟨mkEdge (edgeKey f t) f t data, mkEdge (edgeKey t f) t f data,
      hfwd, hrev, by simp [mkEdge, hfrom], by simp [mkEdge, hto],
      rfl, rfl, rfl, rfl, ?_, ?_⟩
    · intro L g3 h3
      rw [updateEdgeLoad_ok_form _ f t L _ hfwd] at h3
      obtain rfl : _ = g3 := Except.ok.inj h3
      rw [mapGet_mapSet_ne _ _ _ _ hkeys]
      exact hrev
    · intro L g3 h3
      rw [updateEdgeLoad_ok_form _ t f L _ hrev] at h3
      obtain rfl : _ = g3 := Except.ok.inj h3
      rw [mapGet_mapSet_ne _ _ _ _ (Ne.symm hkeys)]
      exact hfwd

/-- `gNodesAB` after a clean bidirectional `addEdge`
(`{travelTime: 5, capacity: 100, bidirectional: true}`). -/
def gBidi : RoadGraph :=
  orElse (addEdge gNodesAB "A" "B"
    { ttCap 5 100 with bidirectional := some true }) gNodesAB

/-- Witness for the amended C8: on `gBidi` the reverse edge really runs
`B → A`. -/
theorem addEdge_bidirectional_independent_witness :
    (mapGet gBidi.edges (edgeKey "B" "A")).map Edge.from_ = some "B" := by
  obtain ⟨efwd, erev, hfwd, hrev, hrf, -⟩ :=
    addEdge_bidirectional_independent gNodesAB "A" "B"
      { ttCap 5 100 with bidirectional := some true } gBidi
      (by decide) (by decide) (by decide) (by decide) (by decide)
  rw [hrev]
  simp [hrf]

/-! ## Claim C9: consistency of the derived neighbor sets -/

/-- The three mutating operations of the public graph API. -/
inductive GraphOp where
  | addNodeOp : String → GraphOp
  | addEdgeOp : String → String → EdgeData → GraphOp
  | updateEdgeLoadOp : String → String → ℚ → GraphOp
deriving DecidableEq, Repr

/-- Apply one operation; a thrown error leaves the graph untouched (both
`addEdge` and `updateEdgeLoad` throw before any mutation). -/
def applyOp (g : RoadGraph) : GraphOp → RoadGraph
  | .addNodeOp id => addNode g id
  | .addEdgeOp f t d => orElse (addEdge g f t d) g
  | .updateEdgeLoadOp f t load => orElse (updateEdgeLoad g f t load) g

/-- Run a whole construction/update script from the empty graph. -/
def runOps (ops : List GraphOp) : RoadGraph := ops.foldl applyOp emptyGraph

/-- Every listed neighbor is backed by a stored edge under the derived
identifier (the subset half of the claimed consistency). -/
def connectionsConsistent (g : RoadGraph) : Prop :=
  ∀ id n t, mapGet g.nodes id = some n → t ∈ n.connections →
    (mapGet g.edges (edgeKey id t)).isSome

theorem addConnection_cases (ns : List (String × Node)) (f t0 id2 : String)
    (n2 : Node) (t : String)
    (h : mapGet (addConnection ns f t0) id2 = some n2) (ht : t ∈ n2.connections) :
    (∃ n, mapGet ns id2 = some n ∧ t ∈ n.connections) ∨ (id2 = f ∧ t = t0) := by
  unfold addConnection at h
  cases hf : mapGet ns f with
  | none =>
    rw [hf] at h
    exact Or.inl ⟨n2, h, ht⟩
  | some n =>
    rw [hf] at h
    by_cases hid : id2 = f
    · subst hid
      rw [mapGet_mapSet_self] at h
      obtain rfl : _ = n2 := Option.some.inj h
      rcases (mem_setAdd _ _ _).mp ht with h1 | h2
      · exact Or.inl ⟨n, hf, h1⟩
      · exact Or.inr ⟨rfl, h2⟩
    · rw [mapGet_mapSet_ne _ _ _ _ hid] at h
      exact Or.inl ⟨n2, h, ht⟩

theorem connectionsConsistent_applyOp (g : RoadGraph) (op : GraphOp)
    (hg : connectionsConsistent g) : connectionsConsistent (applyOp g op) := by
  cases op with
  | addNodeOp id =>
    intro id2 n2 t hn ht
    unfold applyOp addNode at hn ⊢
    by_cases hid : id2 = id
    · subst hid
      rw [mapGet_mapSet_self] at hn
      obtain rfl : _ = n2 := Option.some.inj hn
      simp at ht
    · rw [mapGet_mapSet_ne _ _ _ _ hid] at hn
      exact hg id2 n2 t hn ht
  | addEdgeOp f t0 d =>
    show connectionsConsistent (orElse (addEdge g f t0 d) g)
    unfold addEdge
    by_cases hcond : ((mapGet g.nodes f).isNone || (mapGet g.nodes t0).isNone) = true
    · rw [if_pos hcond]
      exact hg
    · rw [if_neg hcond]
      by_cases hbid : d.bidirectional.getD false = true
      · rw [if_pos hbid]
        intro id2 n2 t hn ht
        show (mapGet (mapSet (mapSet g.edges _ _) _ _) _).isSome
        rcases addConnection_cases _ _ _ _ _ _ hn ht with ⟨n1, hn1, ht1⟩ | ⟨rfl, rfl⟩
        · rcases addConnection_cases _ _ _ _ _ _ hn1 ht1 with ⟨n0, hn0, ht0⟩ | ⟨rfl, rfl⟩
          · exact isSome_mapGet_mapSet _ _ _ _ (isSome_mapGet_mapSet _ _ _ _ (hg _ _ _ hn0 ht0))
          · exact isSome_mapGet_mapSet _ _ _ _ (by rw [mapGet_mapSet_self]; rfl)
        · rw [mapGet_mapSet_self]
          rfl
      · rw [if_neg hbid]
        intro id2 n2 t hn ht
        show (mapGet (mapSet g.edges _ _) _).isSome
        rcases addConnection_cases _ _ _ _ _ _ hn ht with ⟨n0, hn0, ht0⟩ | ⟨rfl, rfl⟩
        · exact isSome_mapGet_mapSet _ _ _ _ (hg _ _ _ hn0 ht0)
        · rw [mapGet_mapSet_self]
          rfl
  | updateEdgeLoadOp f t0 load =>
    show connectionsConsistent (orElse (updateEdgeLoad g f t0 load) g)
    cases he : mapGet g.edges (edgeKey f t0) with
    | none =>
      rw [updateEdgeLoad_error_form g f t0 load he]
      exact hg
    | some e =>
      rw [updateEdgeLoad_ok_form g f t0 load e he]
      intro id2 n2 t hn ht
      exact isSome_mapGet_mapSet _ _ _ _ (hg id2 n2 t hn ht)

/-- Claim C9 amended: after every sequence of `addNode` / `addEdge` /
`updateEdgeLoad` operations, every node's set of outgoing-neighbor
identifiers is *contained in* the set of `toId`s whose edge is stored under
`"<thatNodeId>-<toId>"`.  The claimed equality fails as soon as `addNode` is
re-invoked on an existing id, because the overwrite resets the node's
connection set while the edge map keeps the edges. -/
theorem runOps_connections_subset (ops : List GraphOp) :
    connectionsConsistent (runOps ops) := by
  suffices h : ∀ g, connectionsConsistent g → connectionsConsistent (ops.foldl applyOp g) by
    refine h emptyGraph ?_
    intro id n t hn _
    simp [emptyGraph, mapGet] at hn
  induction ops with
  | nil => exact fun g hg => hg
  | cons op rest ih =>
    intro g hg
    exact ih (applyOp g op) (connectionsConsistent_applyOp g op hg)

/-- Witness for the amended C9: in a concrete run the neighbor `B` of `A` is
backed by the stored edge `A-B`. -/
theorem runOps_connections_subset_witness :
    (mapGet (runOps [GraphOp.addNodeOp "A", GraphOp.addNodeOp "B",
      GraphOp.addEdgeOp "A" "B" emptyEdgeData]).edges (edgeKey "A" "B")).isSome = true :=
  runOps_connections_subset
    [GraphOp.addNodeOp "A", GraphOp.addNodeOp "B", GraphOp.addEdgeOp "A" "B" emptyEdgeData]
    "A" { id := "A", connections := ["B"] } "B" (by decide) (by decide)

/-- The overwrite script of the counterexample: re-adding node `A` clears its
connection set but edge `A-B` survives. -/
def gOverwrite : RoadGraph :=
  runOps [GraphOp.addNodeOp "A", GraphOp.addNodeOp "B",
    GraphOp.addEdgeOp "A" "B" emptyEdgeData, GraphOp.addNodeOp "A"]

/-- Counterexample to C9 as stated: after the overwrite, node `A`'s neighbor
set is empty while the edge stored under `"A-B"` still exists — the claimed
equality of the two sets is violated. -/
theorem runOps_connections_equality_cex :
    mapGet gOverwrite.nodes "A" = some { id := "A", connections := [] }
    ∧ (mapGet gOverwrite.edges (edgeKey "A" "B")).isSome = true :=
  ⟨by decide, by decide⟩

/-! ## Claim C4: the reported travel time is the sum of default edge costs -/

theorem sumUp_totals (g : RoadGraph) (p : List String) (es : List Edge) (d t : ℚ)
    (h : sumUp g p = .ok (es, d, t)) :
    t = (es.map defaultWeight).sum ∧ d = (es.map Edge.distance).sum := by
  induction p generalizing es d t with
  | nil =>
    simp only [sumUp] at h
    obtain ⟨rfl, rfl, rfl⟩ : ([], (0:ℚ), (0:ℚ)) = (es, d, t) := by
      simpa using Except.ok.inj h
    simp
  | cons a rest ih =>
    cases rest with
    | nil =>
      simp only [sumUp] at h
      obtain ⟨rfl, rfl, rfl⟩ : ([], (0:ℚ), (0:ℚ)) = (es, d, t) := by
        simpa using Except.ok.inj h
      simp
    | cons b rest2 =>
      simp only [sumUp] at h
      cases he : mapGet g.edges (edgeKey a b) with
      | none =>
        rw [he] at h
        exact absurd h (by simp)
      | some e =>
        rw [he] at h
        cases hs : sumUp g (b :: rest2) with
        | error msg =>
          rw [hs] at h
          exact absurd h (by simp)
        | ok tri =>
          obtain ⟨es2, d2, t2⟩ := tri
          rw [hs] at h
          obtain ⟨rfl, rfl, rfl⟩ : (e :: es2, e.distance + d2, defaultWeight e + t2) = (es, d, t) := by
            simpa using Except.ok.inj h
          obtain ⟨ht2, hd2⟩ := ih es2 d2 t2 hs
          subst ht2
          subst hd2
          simp

theorem reconstruct_found_totals (g : RoadGraph) (s e : String)
    (prev : List (String × String)) (r : PathResult)
    (h : reconstruct g s e prev = .ok r) (hf : r.found = true) :
    r.travelTime = some ((r.edges.map defaultWeight).sum) ∧
    r.distance = some ((r.edges.map Edge.distance).sum) := by
  unfold reconstruct at h
  split at h
  · obtain rfl : _ = r := Except.ok.inj h
    exact absurd hf (by simp)
  · split at h
    · exact absurd h (by simp)
    · next path hb =>
      split at h
      · exact absurd h (by simp)
      · next es d t hs =>
        obtain rfl : _ = r := Except.ok.inj h
        obtain ⟨ht, hd⟩ := sumUp_totals g path es d t hs
        exact ⟨by simp [ht], by simp [hd]⟩

/-- Claim C4 amended: whatever cost function drives the search (the default
congestion-adjusted one or an injected one), a found result's reported
`travelTime` is the sum of the *default* edge costs
(`currentTravelTime || travelTime`) over the returned edge sequence — the
totals loop always re-reads the default cost, so for the default cost function
the claim holds, but an injected cost function is not the one summed. -/
theorem findShortestPath_travelTime_sums_default (g : RoadGraph) (s e : String)
    (wf : Option (Edge → ℚ)) (r : PathResult)
    (h : findShortestPath g s e wf = .ok r) (hf : r.found = true) :
    r.travelTime = some ((r.edges.map defaultWeight).sum) := by
  unfold findShortestPath at h
  dsimp only at h
  split at h
  · exact absurd h (by simp)
  · split at h
    · exact absurd h (by simp)
    · next prev heq =>
      exact (reconstruct_found_totals g s e prev r h hf).1

/-- The two edges of the scenario shortest path, as stored by `addEdge`. -/
def eAB5 : Edge :=
  ⟨"A-B", "A", "B", 1, 5, 100, 0, 50, none, none⟩

def eBC5 : Edge :=
  ⟨"B-C", "B", "C", 1, 5, 100, 0, 50, none, none⟩

/-- The result of `findShortestPath(gABC, "A", "C")` spelled out. -/
def rABC : PathResult :=
  ⟨true, ["A", "B", "C"], [eAB5, eBC5], some 2, some 10⟩

/-- Witness for the amended C4 on the scenario graph with the default cost
function. -/
theorem findShortestPath_travelTime_sums_default_witness :
    rABC.travelTime = some ((rABC.edges.map defaultWeight).sum) :=
  findShortestPath_travelTime_sums_default gABC "A" "C" none rABC
    (by decide) (by decide)

/-- Counterexample to C4 as stated: under the injected constant cost function
`7`, the search finds the direct path `[A, C]` (one edge), yet the reported
travel time is `20` — the sum of the *default* costs — while summing the
injected cost function over the returned edge sequence gives `7`. -/
theorem findShortestPath_injected_cost_cex :
    (findShortestPath gABC "A" "C" (some (fun _ => (7:ℚ)))).map
      (fun r => (r.found, r.path, r.travelTime, (r.edges.map (fun _ => (7:ℚ))).sum)) =
      .ok (true, ["A", "C"], some 20, 7)
    ∧ some (20:ℚ) ≠ some (7:ℚ) :=
  ⟨by decide, by decide⟩

/-! ## Claim C5: distinctness and count bound of `findAlternativePaths` -/

theorem pathExists_false_iff (paths : List PathResult) (np : List String) :
    pathExists paths np = false ↔ ∀ p ∈ paths, joinDash p.path ≠ joinDash np := by
  simp [pathExists, List.any_eq_false]

/-- An accepted path of the inner suppression loop was found and is new. -/
theorem tryRemoveEdges_accept (s e : String) (paths : List PathResult)
    (pairs : List (String × String)) (tg tg2 : RoadGraph) (np : PathResult)
    (h : tryRemoveEdges s e paths pairs tg = .ok (some (np, tg2))) :
    np.found = true ∧ pathExists paths np.path = false := by
  induction pairs generalizing tg with
  | nil =>
    exact absurd (Except.ok.inj h) (by simp)
  | cons pr rest ih =>
    obtain ⟨f, t⟩ := pr
    unfold tryRemoveEdges at h
    dsimp only at h
    split at h
    · exact absurd h (by simp)
    · split at h
      · exact absurd h (by simp)
      · split at h
        · next hcond =>
          obtain ⟨rfl, rfl⟩ : (_, _) = (np, tg2) := by
            simpa using Except.ok.inj h
          rw [Bool.and_eq_true, Bool.not_eq_true'] at hcond
          exact ⟨hcond.1, hcond.2⟩
        · exact ih _ h

/-- The outer loop preserves pairwise-distinct joined node sequences and adds
at most one path per unit of fuel. -/
theorem altLoop_pairwise_length (s e : String) (fuel : ℕ) :
    ∀ (i : ℕ) (tg : RoadGraph) (paths ps : List PathResult),
    altLoop s e fuel i tg paths = .ok ps →
    paths.Pairwise (fun p q => joinDash p.path ≠ joinDash q.path) →
    ps.Pairwise (fun p q => joinDash p.path ≠ joinDash q.path) ∧
      ps.length ≤ paths.length + fuel := by
  induction fuel with
  | zero =>
    intro i tg paths ps h hp
    obtain rfl : paths = ps := Except.ok.inj h
    exact ⟨hp, by simp⟩
  | succ n ih =>
    intro i tg paths ps h hp
    unfold altLoop at h
    split at h
    · exact absurd h (by simp)
    · next prevPath hprev =>
      split at h
      · exact absurd h (by simp)
      · obtain rfl : paths = ps := Except.ok.inj h
        exact ⟨hp, by omega⟩
      · next np tg2 hacc =>
        obtain ⟨-, hnew⟩ := tryRemoveEdges_accept s e paths _ tg tg2 np hacc
        have hp2 : (paths ++ [np]).Pairwise
            (fun p q => joinDash p.path ≠ joinDash q.path) := by
          rw [List.pairwise_append]
          refine ⟨hp, by simp, ?_⟩
          intro a ha b hb
          simp only [List.mem_singleton] at hb
          rw [hb]
          exact (pathExists_false_iff paths np.path).mp hnew a ha
        obtain ⟨h1, h2⟩ := ih (i + 1) tg2 (paths ++ [np]) ps h hp2
        refine ⟨h1, ?_⟩
        simp only [List.length_append, List.length_singleton] at h2
        omega

/-- Claim C5 amended: whenever `findAlternativePaths(start, end, k)` returns a
list (rather than throwing), the list contains no two paths with the same
ordered node sequence and has length at most `max k 1`: the bound `k` claimed
for every `k` fails only at `k = 0`, where the unconditionally pushed initial
path makes the result a singleton. -/
theorem findAlternativePaths_distinct_bounded (g : RoadGraph) (s e : String)
    (k : ℕ) (ps : List PathResult)
    (h : findAlternativePaths g s e k = .ok ps) :
    ps.Pairwise (fun p q => p.path ≠ q.path) ∧ ps.length ≤ max k 1 := by
  unfold findAlternativePaths at h
  split at h
  · exact absurd h (by simp)
  · next initialPath heq =>
    split at h
    · split at h
      · exact absurd h (by simp)
      · next tg hcopy =>
        obtain ⟨h1, h2⟩ := altLoop_pairwise_length s e (k - 1) 1 tg [initialPath] ps h
          (by simp)
        refine ⟨h1.imp (fun hne heq2 => hne (congrArg joinDash heq2)), ?_⟩
        simp only [List.length_singleton] at h2
        omega
    · obtain rfl : [] = ps := Except.ok.inj h
      simp

/-- The single path returned on `gAB` with `k = 1`. -/
def eAB10 : Edge :=
  ⟨"A-B", "A", "B", 1, 10, 100, 0, 50, none, none⟩

def pAB : PathResult :=
  ⟨true, ["A", "B"], [eAB10], some 1, some 10⟩

/-- Witness for the amended C5 at `k = 1` on `gAB`. -/
theorem findAlternativePaths_distinct_bounded_witness :
    [pAB].Pairwise (fun p q => p.path ≠ q.path) ∧ [pAB].length ≤ max 1 1 :=
  findAlternativePaths_distinct_bounded gAB "A" "B" 1 [pAB] (by decide)

/-- Counterexample to C5 as stated: `k = 0` still returns one path, because
the initial shortest path is pushed before the `i < k` loop is consulted. -/
theorem findAlternativePaths_zero_k_cex :
    (findAlternativePaths gAB "A" "B" 0).map List.length = .ok 1 ∧ ¬ (1 ≤ 0) :=
  ⟨by decide, by decide⟩

/-! ## Claim C1: exactness of the traffic distribution -/

theorem foldl_add_eq_sum {M : Type} [AddCommMonoid M] (l : List M) (x : M) :
    l.foldl (fun a b => a + b) x = x + l.sum := by
  induction l generalizing x with
  | nil => simp
  | cons a rest ih => simp [ih, List.sum_cons, add_assoc]

theorem int_sum_cast (l : List ℤ) :
    ((l.sum : ℤ) : ℚ) = (l.map (Int.cast : ℤ → ℚ)).sum := by
  induction l with
  | nil => simp
  | cons a rest ih => simp [List.sum_cons, ih]

theorem pathWeight_ok (p : PathResult) (w : ℚ) (h : pathWeight p = .ok w) :
    ∃ t, p.travelTime = some t ∧ t ≠ 0 ∧ w = 1 / t := by
  unfold pathWeight at h
  split at h
  · next t ht =>
    split at h
    · exact absurd h (by simp)
    · next ht0 => exact ⟨t, ht, ht0, (Except.ok.inj h).symm⟩
  · exact absurd h (by simp)

theorem computeWeights_ok (paths : List PathResult) (ws : List (PathResult × ℚ))
    (h : computeWeights paths = .ok ws) :
    ws.map Prod.fst = paths ∧
    ∀ pw ∈ ws, ∃ t, pw.1.travelTime = some t ∧ t ≠ 0 ∧ pw.2 = 1 / t := by
  induction paths generalizing ws with
  | nil =>
    obtain rfl : ([] : List (PathResult × ℚ)) = ws := Except.ok.inj h
    simp
  | cons p rest ih =>
    unfold computeWeights at h
    split at h
    · next w ws2 hw hws =>
      obtain rfl : (p, w) :: ws2 = ws := Except.ok.inj h
      obtain ⟨hmap, hall⟩ := ih ws2 hws
      refine ⟨by simp [hmap], ?_⟩
      intro pw hpw
      rcases List.mem_cons.mp hpw with rfl | hmem
      · obtain ⟨t, ht, ht0, hw1⟩ := pathWeight_ok p w hw
        exact ⟨t, ht, ht0, hw1⟩
      · exact hall pw hmem
    · exact absurd h (by simp)
    · exact absurd h (by simp)

/-- Exact rational arithmetic: the floored proportional allocations can never
exceed the total (their ideal values sum to exactly the total). -/
theorem sum_floor_alloc_le (T : ℤ) (ws : List ℚ) (W : ℚ)
    (hW : W = ws.sum) (hW0 : W ≠ 0) :
    (ws.map (fun w => ⌊(T : ℚ) * (w / W)⌋)).sum ≤ T := by
  have h1 : (((ws.map (fun w => ⌊(T : ℚ) * (w / W)⌋)).sum : ℤ) : ℚ) =
      (ws.map (fun w => ((⌊(T : ℚ) * (w / W)⌋ : ℤ) : ℚ))).sum := by
    rw [int_sum_cast, List.map_map]
    rfl
  have h2 : (ws.map (fun w => ((⌊(T : ℚ) * (w / W)⌋ : ℤ) : ℚ))).sum ≤
      (ws.map (fun w => (T : ℚ) * (w / W))).sum :=
    List.sum_le_sum (fun w _ => Int.floor_le _)
  have h3 : (ws.map (fun w => (T : ℚ) * (w / W))).sum = (T : ℚ) := by
    have hfun : (fun w : ℚ => (T : ℚ) * (w / W)) = fun w => ((T : ℚ) / W) * w := by
      funext w
      ring
    rw [hfun, List.sum_map_mul_left]
    have hid : (ws.map (fun w : ℚ => w)).sum = W := by
      rw [hW]
      congr 1
      exact List.map_id' ws
    rw [hid, div_mul_cancel₀ _ hW0]
  rw [h3] at h2
  rw [← h1] at h2
  exact_mod_cast h2

/-- Everything the allocation step guarantees on a nonempty weighted list with
nonzero total weight: counts sum exactly to the total, weights are preserved,
the tail keeps its floored allocation, the head receives the entire remainder,
and (for a nonnegative total and positive weights) every count is
nonnegative. -/
theorem allocate_main (T : ℤ) (W : ℚ) (pw0 : PathResult × ℚ)
    (rest : List (PathResult × ℚ))
    (hW : W = ((pw0 :: rest).map Prod.snd).sum) (hW0 : W ≠ 0) :
    ∃ d0 ds, allocate T W (pw0 :: rest) = d0 :: ds ∧
      ((d0 :: ds).map DistEntry.vehicleCount).sum = T ∧
      (d0 :: ds).map DistEntry.weight = (pw0 :: rest).map Prod.snd ∧
      d0.path = pw0.1.path ∧ d0.weight = pw0.2 ∧
      ds = rest.map (mkDistEntry T W) ∧
      d0.vehicleCount = ⌊(T : ℚ) * (pw0.2 / W)⌋ +
        (T - (((pw0 :: rest).map Prod.snd).map (fun w => ⌊(T : ℚ) * (w / W)⌋)).sum) ∧
      (0 ≤ T → (∀ w ∈ (pw0 :: rest).map Prod.snd, 0 < w) →
        ∀ d ∈ d0 :: ds, 0 ≤ d.vehicleCount) := by
  have hfloors : ((pw0 :: rest).map (mkDistEntry T W)).map DistEntry.vehicleCount =
      ((pw0 :: rest).map Prod.snd).map (fun w => ⌊(T : ℚ) * (w / W)⌋) := by
    rw [List.map_map, List.map_map]
    rfl
  have hweights : ((pw0 :: rest).map (mkDistEntry T W)).map DistEntry.weight =
      (pw0 :: rest).map Prod.snd := by
    rw [List.map_map]
    rfl
  have hle : (((pw0 :: rest).map Prod.snd).map (fun w => ⌊(T : ℚ) * (w / W)⌋)).sum ≤ T :=
    sum_floor_alloc_le T _ W hW hW0
  have hfsum : (((pw0 :: rest).map (mkDistEntry T W)).map DistEntry.vehicleCount).foldl
      (fun a b => a + b) 0 =
      (((pw0 :: rest).map Prod.snd).map (fun w => ⌊(T : ℚ) * (w / W)⌋)).sum := by
    rw [foldl_add_eq_sum, zero_add, hfloors]
  have hnonneg : 0 ≤ T → (∀ w ∈ (pw0 :: rest).map Prod.snd, 0 < w) →
      ∀ pw ∈ pw0 :: rest, 0 ≤ (mkDistEntry T W pw).vehicleCount := by
    intro hT hpos pw hpw
    have hWpos : 0 < W := by
      rw [hW]
      refine List.sum_pos _ hpos (by simp)
    refine Int.floor_nonneg.mpr ?_
    have hw : 0 < pw.2 := hpos pw.2 (List.mem_map.mpr ⟨pw, hpw, rfl⟩)
    have : (0 : ℚ) ≤ (T : ℚ) := by exact_mod_cast hT
    exact mul_nonneg this (div_nonneg (le_of_lt hw) (le_of_lt hWpos))
  unfold allocate assignRemainder
  dsimp only
  rw [hfsum]
  set F := (((pw0 :: rest).map Prod.snd).map (fun w => ⌊(T : ℚ) * (w / W)⌋)).sum with hF
  have hFc : F = (mkDistEntry T W pw0).vehicleCount +
      ((rest.map (mkDistEntry T W)).map DistEntry.vehicleCount).sum := by
    rw [hF, ← hfloors]
    simp [List.map_cons, List.sum_cons]
  have hwc : (mkDistEntry T W pw0).weight :: (rest.map (mkDistEntry T W)).map DistEntry.weight =
      pw0.2 :: rest.map Prod.snd := by
    have hh := hweights
    simp only [List.map_cons] at hh
    exact hh
  by_cases hrem : 0 < T - F
  · rw [if_pos hrem]
    simp only [List.map_cons]
    refine ⟨_, _, rfl, ?_, ?_, rfl, rfl, rfl, ?_, ?_⟩
    · simp only [List.map_cons, List.sum_cons]
      simp only [mkDistEntry] at hFc ⊢
      omega
    · exact hwc
    · simp only [mkDistEntry]
    · intro hT hpos d hd
      rcases List.mem_cons.mp hd with rfl | hmem
      · have h0 := hnonneg hT hpos pw0 (by simp)
        simp only [mkDistEntry] at h0 ⊢
        omega
      · obtain ⟨pw, hpw, rfl⟩ := List.mem_map.mp hmem
        exact hnonneg hT hpos pw (by simp [hpw])
  · rw [if_neg hrem]
    have hR : T - F = 0 := by omega
    simp only [List.map_cons]
    refine ⟨_, _, rfl, ?_, ?_, rfl, rfl, rfl, ?_, ?_⟩
    · simp only [List.map_cons, List.sum_cons]
      simp only [mkDistEntry] at hFc ⊢
      omega
    · exact hwc
    · simp only [mkDistEntry]
      omega
    · intro hT hpos d hd
      rcases List.mem_cons.mp hd with rfl | hmem
      · exact hnonneg hT hpos pw0 (by simp)
      · obtain ⟨pw, hpw, rfl⟩ := List.mem_map.mp hmem
        exact hnonneg hT hpos pw (by simp [hpw])

/-- The outer loop only ever appends to the accepted list. -/
theorem altLoop_prefix (s e : String) (fuel : ℕ) :
    ∀ (i : ℕ) (tg : RoadGraph) (paths ps : List PathResult),
    altLoop s e fuel i tg paths = .ok ps → ∃ suffix, ps = paths ++ suffix := by
  induction fuel with
  | zero =>
    intro i tg paths ps h
    obtain rfl : paths = ps := Except.ok.inj h
    exact ⟨[], by simp⟩
  | succ n ih =>
    intro i tg paths ps h
    unfold altLoop at h
    split at h
    · exact absurd h (by simp)
    · next prevPath hprev =>
      split at h
      · exact absurd h (by simp)
      · obtain rfl : paths = ps := Except.ok.inj h
        exact ⟨[], by simp⟩
      · next np tg2 hacc =>
        obtain ⟨suffix, hsuf⟩ := ih (i + 1) tg2 (paths ++ [np]) ps h
        exact ⟨np :: suffix, by simp [hsuf]⟩

/-- A nonempty alternatives list starts with the `findShortestPath` result —
the path found first. -/
theorem findAlternativePaths_head (g : RoadGraph) (s e : String) (k : ℕ)
    (ps : List PathResult) (h : findAlternativePaths g s e k = .ok ps)
    (hne : ps ≠ []) :
    ∃ p0 rest2, findShortestPath g s e none = .ok p0 ∧ p0.found = true ∧
      ps = p0 :: rest2 := by
  unfold findAlternativePaths at h
  split at h
  · exact absurd h (by simp)
  · next initialPath heq =>
    split at h
    · next hfound =>
      split at h
      · exact absurd h (by simp)
      · next tg hcopy =>
        obtain ⟨suffix, hsuf⟩ := altLoop_prefix s e (k - 1) 1 tg [initialPath] ps h
        exact ⟨initialPath, suffix, heq, hfound, by simpa using hsuf⟩
    · obtain rfl : ([] : List PathResult) = ps := Except.ok.inj h
      exact absurd rfl (fun hh => hne hh.symm)

/-- Claim C1 amended: whenever `distributeTraffic` returns a success result
(in particular the reciprocal weights and their total were finite and
nonzero) and every entry's weight is positive — which holds exactly when every
candidate travel time is positive, as the data model intends — then every
`vehicleCount` is a nonnegative integer, the counts sum exactly to
`totalVehicles`, every non-first entry keeps its floored proportional
allocation, the entire flooring remainder is added to the first entry, and
that first entry is the path found first: the `findShortestPath` result.
(As stated the claim also fails for `numPaths ≥ 2`, where the edge-suppression
search throws before any distribution is built.) -/
theorem distributeTraffic_exact (g : RoadGraph) (s e : String) (T : ℤ) (n : ℕ)
    (r : DistributionResult) (hT : 0 ≤ T)
    (h : distributeTraffic g s e T n = .ok r) (hs : r.success = true)
    (hw : ∀ d ∈ r.distribution, 0 < d.weight) :
    ((r.distribution.map DistEntry.vehicleCount).sum = T) ∧
    (∀ d ∈ r.distribution, 0 ≤ d.vehicleCount) ∧
    (∃ d0 ds, r.distribution = d0 :: ds ∧
      (∀ d ∈ ds, d.vehicleCount =
        ⌊(T : ℚ) * (d.weight / (r.distribution.map DistEntry.weight).sum)⌋) ∧
      d0.vehicleCount =
        ⌊(T : ℚ) * (d0.weight / (r.distribution.map DistEntry.weight).sum)⌋ +
        (T - (r.distribution.map (fun d =>
          ⌊(T : ℚ) * (d.weight / (r.distribution.map DistEntry.weight).sum)⌋)).sum) ∧
      (∃ p0, findShortestPath g s e none = .ok p0 ∧ p0.found = true ∧
        d0.path = p0.path)) := by
  unfold distributeTraffic at h
  split at h
  · exact absurd h (by simp)
  · next paths hpaths =>
    split at h
    · rw [← Except.ok.inj h] at hs
      exact absurd hs (by simp)
    · next hne0 =>
      split at h
      · exact absurd h (by simp)
      · next weighted hcw =>
        dsimp only at h
        split at h
        · exact absurd h (by simp)
        · next hW0 =>
          obtain ⟨hmapfst, hall⟩ := computeWeights_ok paths weighted hcw
          obtain ⟨pw0, rest, rfl⟩ : ∃ pw0 rest, weighted = pw0 :: rest := by
            cases weighted with
            | nil =>
              rw [← hmapfst] at hne0
              simp at hne0
            | cons a b => exact ⟨a, b, rfl⟩
          have hWsum : (((pw0 :: rest).map Prod.snd).foldl (fun a b => a + b) 0) =
              ((pw0 :: rest).map Prod.snd).sum := by
            rw [foldl_add_eq_sum, zero_add]
          obtain ⟨d0, ds, halloc, hsum, hwts, hpath0, hwt0, hds, hvc0, hnn⟩ :=
            allocate_main T (((pw0 :: rest).map Prod.snd).foldl (fun a b => a + b) 0)
              pw0 rest hWsum hW0
          have hrd : r.distribution = d0 :: ds := by
            rw [← Except.ok.inj h]
            exact halloc
          have hWD : (r.distribution.map DistEntry.weight).sum =
              (((pw0 :: rest).map Prod.snd).foldl (fun a b => a + b) 0) := by
            rw [hrd, hwts, ← hWsum]
          have hpos : ∀ w ∈ (pw0 :: rest).map Prod.snd, 0 < w := by
            intro w hwmem
            rw [← hwts] at hwmem
            obtain ⟨d, hd, rfl⟩ := List.mem_map.mp hwmem
            refine hw d ?_
            rw [hrd]
            exact hd
          refine ⟨?_, ?_, d0, ds, hrd, ?_, ?_, ?_⟩
          · rw [hrd]
            exact hsum
          · intro d hd
            rw [hrd] at hd
            exact hnn hT hpos d hd
          · intro d hd
            rw [hds] at hd
            obtain ⟨pw, hpw, rfl⟩ := List.mem_map.mp hd
            rw [hWD]
            rfl
          · have hmaps : (r.distribution.map (fun d =>
                ⌊(T : ℚ) * (d.weight / (r.distribution.map DistEntry.weight).sum)⌋)).sum =
                (((pw0 :: rest).map Prod.snd).map (fun w =>
                  ⌊(T : ℚ) * (w / (((pw0 :: rest).map Prod.snd).foldl
                    (fun a b => a + b) 0))⌋)).sum := by
              rw [hWD, hrd, ← hwts, List.map_map]
              rfl
            rw [hmaps, hWD, hwt0]
            exact hvc0
          · have hpne : paths ≠ [] := by
              intro hempty
              rw [hempty] at hne0
              simp at hne0
            obtain ⟨p0, rest2, hsp, hfound, hcons⟩ :=
              findAlternativePaths_head g s e n paths hpaths hpne
            refine ⟨p0, hsp, hfound, ?_⟩
            have hhead : pw0.1 = p0 := by
              rw [hcons] at hmapfst
              simp only [List.map_cons] at hmapfst
              exact (List.cons_eq_cons.mp hmapfst).1
            rw [hpath0, hhead]

/-- The distribution plan produced on `gAB` for 5 vehicles over 1 path. -/
def rDistAB : DistributionResult :=
  ⟨true, none, some 5, [⟨["A", "B"], [eAB10], some 10, some 1, 1/10, 5⟩]⟩

/-- Witness for the amended C1: on `gAB` with 5 vehicles and one candidate
path the counts sum to exactly 5. -/
theorem distributeTraffic_exact_witness :
    (rDistAB.distribution.map DistEntry.vehicleCount).sum = 5 :=
  (distributeTraffic_exact gAB "A" "B" 5 1 rDistAB (by decide) (by decide)
    (by decide) (by decide)).1

/-- Counterexample to C1 as stated: on the scenario graph — where a path from
`A` to `C` exists — `distributeTraffic("A", "C", 100, 2)` does not return a
success result at all: the alternative-path search throws the missing-edge
`TypeError` before any distribution is built. -/
theorem distributeTraffic_crash_cex :
    distributeTraffic gABC "A" "C" 100 2 =
      .error "TypeError: cannot read properties of undefined" := by
  decide

end SmartRoute
